import Mathlib

/-!
Verification of the `yt-audio-dl` pipeline (matching, metadata resolution and
organization).  The Python sources are shallowly embedded: strings are lists of
characters, the regular expressions of `metadata.clean_title` and
`__main__.sanitize_filename` are unfolded into explicit scanners with the same
matching semantics, and the stateful `move_and_tag` routine becomes a pure
function from a `DownloadResult` to either a fatal exit or the produced album
directory, log entries and download log.
-/

namespace YtAudioDl

/-- Strings of the embedded program are lists of characters. -/
abbrev Str := List Char

/-- The whitespace class of Python regular expressions and of `str.strip` /
`str.isspace` (ASCII whitespace together with the Unicode space code points). -/
def isPySpace (c : Char) : Bool :=
  c = ' ' || c = '\t' || c = '\n' || c = '\r' ||
  c = Char.ofNat 0x0B || c = Char.ofNat 0x0C ||
  c = Char.ofNat 0x1C || c = Char.ofNat 0x1D ||
  c = Char.ofNat 0x1E || c = Char.ofNat 0x1F ||
  c = Char.ofNat 0x85 || c = Char.ofNat 0xA0 ||
  c = Char.ofNat 0x1680 ||
  (Char.ofNat 0x2000 ≤ c && c ≤ Char.ofNat 0x200A) ||
  c = Char.ofNat 0x2028 || c = Char.ofNat 0x2029 ||
  c = Char.ofNat 0x202F || c = Char.ofNat 0x205F ||
  c = Char.ofNat 0x3000

/-- Case folding used by `re.IGNORECASE` on the (ASCII) pattern letters of
`_TITLE_NOISE`: ASCII lowering plus the complete set of non-ASCII characters
Python's regex engine folds onto ASCII letters — dotted capital I (U+0130) and
dotless small i (U+0131) fold to `i` (the `i`/`ı` equivalence class together
with the simple lowercase mapping of `İ`), long s (U+017F) folds to `s`, and
the Kelvin sign (U+212A) folds to `k`.  An exhaustive scan of `re.fullmatch`
over the code points confirms no other non-ASCII character matches any letter
of the pattern vocabulary case-insensitively. -/
def foldC (c : Char) : Char :=
  if c = Char.ofNat 0x130 then 'i'
  else if c = Char.ofNat 0x131 then 'i'
  else if c = Char.ofNat 0x17F then 's'
  else if c = Char.ofNat 0x212A then 'k'
  else c.toLower

/-- Match the pattern word `pat` (given lowercase) case-insensitively against a
prefix of `s`; return the remainder on success. -/
def matchCIGo : List Char → Str → Option Str
  | [], s => some s
  | _ :: _, [] => none
  | p :: ps, c :: cs => if foldC c = p then matchCIGo ps cs else none

/-- Match a literal pattern word against a prefix of `s`, case-insensitively. -/
def matchCI (pat : String) (s : Str) : Option Str :=
  matchCIGo pat.data s

/-- The regex fragment `\s+`: at least one whitespace character (greedy; the
following pattern token is never whitespace, so the maximal run is consumed). -/
def ws1 (s : Str) : Option Str :=
  match s with
  | c :: r => if isPySpace c then some (r.dropWhile isPySpace) else none
  | [] => none

/-- Two pattern words separated by the regex fragment `\s+`. -/
def matchSeq2 (w1 w2 : String) (s : Str) : Option Str :=
  (matchCI w1 s).bind fun r => (ws1 r).bind fun r2 => matchCI w2 r2

/-- The alternatives prefixed by `Official\s+` in `_TITLE_NOISE`, in the
pattern's order: `Video|Audio|Music\s+Video|Lyric\s+Video|Visualizer`. -/
def matchOfficialTail (s : Str) : Option Str :=
  (matchCI "video" s).orElse fun _ =>
  (matchCI "audio" s).orElse fun _ =>
  (matchSeq2 "music" "video" s).orElse fun _ =>
  (matchSeq2 "lyric" "video" s).orElse fun _ =>
  matchCI "visualizer" s

/-- The alternation of noise phrases inside `_TITLE_NOISE`, in the pattern's
order.  Python's engine tries alternatives left to right; because no phrase is
a prefix of an earlier one that could also be followed by the closing bracket,
committing to the first prefix match is equivalent to full backtracking. -/
def phraseTail (s : Str) : Option Str :=
  ((matchCI "official" s).bind fun r => (ws1 r).bind matchOfficialTail).orElse fun _ =>
  (matchSeq2 "lyric" "video" s).orElse fun _ =>
  (matchSeq2 "audio" "only" s).orElse fun _ =>
  (matchCI "audio" s).orElse fun _ =>
  (matchCI "hq" s).orElse fun _ =>
  (matchCI "hd" s).orElse fun _ =>
  matchCI "4k" s

/-- Try to match the whole `_TITLE_NOISE` pattern
`\s*[\(\[]\s*(?:…)\s*[\)\]]` at the head of `l`; return the remainder after
the match.  Each `\s*` is forced to consume the full whitespace run because the
token that follows it (a bracket or a phrase letter) is never whitespace. -/
def tryNoise (l : Str) : Option Str :=
  match l.dropWhile isPySpace with
  | [] => none
  | c :: r =>
    if c = '(' || c = '[' then
      match phraseTail (r.dropWhile isPySpace) with
      | none => none
      | some r2 =>
        match r2.dropWhile isPySpace with
        | [] => none
        | d :: r4 => if d = ')' || d = ']' then some r4 else none
    else none

/-- `_TITLE_NOISE.sub("", title)`: scan left to right; at each position either
remove a match of the noise pattern and resume after it, or keep the character.
Fuel is the length of the list; a match always consumes at least one character,
so the fuel never runs out. -/
def noiseSubGo : Nat → Str → Str
  | 0, l => l
  | _ + 1, [] => []
  | n + 1, c :: rest =>
    match tryNoise (c :: rest) with
    | some rem => noiseSubGo n rem
    | none => c :: noiseSubGo n rest

/-- All non-overlapping matches of `_TITLE_NOISE` removed, leftmost first. -/
def noiseSub (l : Str) : Str :=
  noiseSubGo l.length l

/-- State machine for `re.sub(r"\s{2,}", " ", s)`: a pending whitespace run is
tracked as its first character together with a flag recording whether the run
has at least two characters; runs of length ≥ 2 become a single space, shorter
runs are kept verbatim. -/
def collapse2Go : Option (Char × Bool) → Str → Str
  | none, [] => []
  | some (w, more), [] => if more then [' '] else [w]
  | none, c :: rest =>
    if isPySpace c then collapse2Go (some (c, false)) rest
    else c :: collapse2Go none rest
  | some (w, more), c :: rest =>
    if isPySpace c then collapse2Go (some (w, true)) rest
    else (if more then [' '] else [w]) ++ c :: collapse2Go none rest

/-- `re.sub(r"\s{2,}", " ", s)`. -/
def collapse2 (l : Str) : Str :=
  collapse2Go none l

/-- `str.strip()`: drop leading and trailing whitespace. -/
def pyStrip (l : Str) : Str :=
  ((l.dropWhile isPySpace).reverse.dropWhile isPySpace).reverse

/-- The intermediate value `cleaned` of `metadata.clean_title`: the noise
substitution followed by whitespace collapsing and stripping. -/
def cleanTitleCore (t : Str) : Str :=
  pyStrip (collapse2 (noiseSub t))

/-- `metadata.clean_title`: `return cleaned or title`. -/
def cleanTitle (t : Str) : Str :=
  let c := cleanTitleCore t
  if c = [] then t else c


/-- The characters removed by `sanitize_filename`:
`re.sub(r'[<>:"/\\|?*]', "", name)`. -/
def isIllegalFsChar (c : Char) : Bool :=
  c = '<' || c = '>' || c = ':' || c = '"' || c = '/' ||
  c = '\\' || c = '|' || c = '?' || c = '*'

/-- State machine for `re.sub(r"\s+", " ", s)`: every whitespace run (of any
length) is replaced by a single space.  The flag records whether the previous
character was part of a run already replaced. -/
def collapseAllGo : Bool → Str → Str
  | _, [] => []
  | prev, c :: rest =>
    if isPySpace c then
      (if prev then [] else [' ']) ++ collapseAllGo true rest
    else c :: collapseAllGo false rest

/-- `re.sub(r"\s+", " ", s)`. -/
def collapseAll (l : Str) : Str :=
  collapseAllGo false l

/-- `__main__.sanitize_filename`: remove the illegal characters, collapse
whitespace runs to single spaces, strip, then truncate to 200 characters. -/
def sanitizeFilename (name : Str) : Str :=
  (pyStrip (collapseAll (name.filter (fun c => !isIllegalFsChar c)))).take 200

/-- Two adjacent characters do not form a whitespace run: the relation whose
`Chain'` closure says a string has no run of two or more whitespace
characters. -/
def noWsPair (a b : Char) : Prop :=
  ¬(isPySpace a = true ∧ isPySpace b = true)

/-- Spec-side description, following the claim's words: a string consisting
only of whitespace characters. -/
def WsOnly (w : Str) : Prop :=
  ∀ x ∈ w, isPySpace x = true

/-- Spec-side description: a case-insensitive occurrence of the vocabulary
word `wrd` (given lowercase). -/
def WordCI (wrd : String) (p : Str) : Prop :=
  p.map foldC = wrd.data

/-- Spec-side description: a non-empty whitespace run separating two words of
a vocabulary phrase. -/
def WsRun (g : Str) : Prop :=
  g ≠ [] ∧ WsOnly g

/-- Spec-side description: two vocabulary words separated by one whitespace
run. -/
def Phrase2 (w1 w2 : String) (p : Str) : Prop :=
  ∃ a g b, p = a ++ g ++ b ∧ WordCI w1 a ∧ WsRun g ∧ WordCI w2 b

/-- Spec-side description: three vocabulary words separated by whitespace
runs. -/
def Phrase3 (w1 w2 w3 : String) (p : Str) : Prop :=
  ∃ a g r, p = a ++ g ++ r ∧ WordCI w1 a ∧ WsRun g ∧ Phrase2 w2 w3 r

/-- Spec-side description of the claim's closed noise vocabulary: the phrases
"Official Video", "Official Audio", "Official Music Video", "Official Lyric
Video", "Official Visualizer", "Lyric Video", "Audio Only", "Audio", "HQ",
"HD" and "4K", matched case-insensitively with arbitrary internal whitespace
runs. -/
def NoisePhrase (p : Str) : Prop :=
  Phrase2 "official" "video" p ∨ Phrase2 "official" "audio" p ∨
  Phrase3 "official" "music" "video" p ∨ Phrase3 "official" "lyric" "video" p ∨
  Phrase2 "official" "visualizer" p ∨ Phrase2 "lyric" "video" p ∨
  Phrase2 "audio" "only" p ∨ WordCI "audio" p ∨ WordCI "hq" p ∨
  WordCI "hd" p ∨ WordCI "4k" p


/-- A parsed `info.json` sidecar record (`TrackMetadata`): the keys that the
pipeline reads, each optional (`none` means the key is absent). -/
structure Info where
  id : Option Str := none
  title : Option Str := none
  artist : Option Str := none
  creator : Option Str := none
  uploader : Option Str := none
  channel : Option Str := none
  uploadDate : Option Str := none
  duration : Option Nat := none
deriving DecidableEq

/-- The empty metadata record paired with an artifact whose sidecar is
missing (`info_map.get(stem, {})`). -/
def emptyInfo : Info := {}

/-- Python truthiness of an optional string value (`if val:`): present and
non-empty. -/
def truthy (o : Option Str) : Bool :=
  match o with
  | some s => !s.isEmpty
  | none => false

/-- `metadata.get_artist`: the first truthy value among `artist`, `creator`,
`uploader`, `channel`, else the sentinel. -/
def getArtist (i : Info) : Str :=
  if truthy i.artist then i.artist.getD []
  else if truthy i.creator then i.creator.getD []
  else if truthy i.uploader then i.uploader.getD []
  else if truthy i.channel then i.channel.getD []
  else "Unknown Artist".data

/-- `metadata.determine_album_artist`: the number of distinct resolved artists
decides between the sole artist and the sentinel `"Various Artists"`. -/
def determineAlbumArtist (infos : List Info) : Str :=
  let artists := (infos.map getArtist).dedup
  if artists.length = 1 then artists.headD [] else "Various Artists".data


/-- Does `suf` occur at the end of `n` with at least one character before it?
This captures `pathlib.Path.suffix == suf` for a suffix without inner dots. -/
def hasSuffixAfter (n suf : Str) : Bool :=
  suf.length < n.length && (n.drop (n.length - suf.length) == suf)

/-- Plain `str.endswith`. -/
def endsWithB (n suf : Str) : Bool :=
  suf.length ≤ n.length && (n.drop (n.length - suf.length) == suf)

/-- `path.suffix == ".opus"` for a staged file name. -/
def isOpusName (n : Str) : Bool :=
  hasSuffixAfter n ".opus".data

/-- `path.stem` of an `.opus` file name. -/
def opusStem (n : Str) : Str :=
  n.take (n.length - 5)

/-- `path.suffix == ".json" and path.stem.endswith(".info")`. -/
def isInfoJsonName (n : Str) : Bool :=
  hasSuffixAfter n ".json".data && endsWithB (n.take (n.length - 5)) ".info".data

/-- `info_path.name.removesuffix(".info.json")`: the pairing key of a metadata
sidecar. -/
def infoKey (n : Str) : Str :=
  if endsWithB n ".info.json".data then n.take (n.length - 10) else n

/-- Playlist-level metadata as consumed by the organization stage. -/
structure PlaylistInfoM where
  title : Str
  url : Str
deriving DecidableEq

/-- `downloader.DownloadResult`, with audio artifacts represented by their
filename stems (every collected artifact name ends in `.opus`). -/
structure DownloadResult where
  playlistTitle : Str
  playlistUrl : Str
  downloadedStems : List Str
  infoJsonNames : List Str
  errors : List Str
deriving DecidableEq

/-- The staging-directory scan at the end of `downloader.download_playlist`:
`listing` stands for `sorted(temp_dir.iterdir())` (file names, in sorted
order) produced by the external retrieval collaborator.  Audio artifacts and
metadata sidecars are collected by suffix; the `errors` list is created empty
by the `DownloadResult` constructor and never appended to. -/
def downloadPlaylist (pl : PlaylistInfoM) (listing : List Str) : DownloadResult :=
  { playlistTitle := pl.title
    playlistUrl := pl.url
    downloadedStems := (listing.filter isOpusName).map opusStem
    infoJsonNames := listing.filter isInfoJsonName
    errors := [] }

/-- One element of the `tracks` list of the download log. -/
structure LogEntry where
  trackNumber : Nat
  videoId : Str
  title : Str
  artist : Str
  filename : Str
  duration : Option Nat
deriving DecidableEq

/-- The persisted `download_log.json` (the wall-clock `download_date` field is
not modelled). -/
structure DownloadLog where
  playlistUrl : Str
  playlistTitle : Str
  album : Str
  albumArtist : Str
  tracks : List LogEntry
  errors : List Str
deriving DecidableEq

/-- The observable outcome of a completed `move_and_tag` run: the album
directory path components, the per-track log entries (each also describing the
destination filename of the corresponding move) and the download log. -/
structure TagOutput where
  albumDir : List Str
  entries : List LogEntry
  log : DownloadLog
deriving DecidableEq

/-- Result of `move_and_tag`: either `sys.exit(code)` before any directory is
created, or a completed organization. -/
inductive MTResult where
  | fatal (code : Nat)
  | ok (o : TagOutput)
deriving DecidableEq

/-- Directories created by a `move_and_tag` outcome: the fatal exit happens
before `album_dir.mkdir`, so it creates none. -/
def createdDirs : MTResult → List (List Str)
  | .fatal _ => []
  | .ok o => [o.albumDir]

/-- `f"{i:02d}"` for a natural number. -/
def pad2 (n : Nat) : Str :=
  if n < 10 then '0' :: Nat.toDigits 10 n else Nat.toDigits 10 n

/-- Lookup in the `info_map` dict built from the sidecar list: later entries
with the same key overwrite earlier ones, so the last matching name wins.
`loadInfo` models `load_info_json` (reading and parsing the file). -/
def lookupInfo (names : List Str) (loadInfo : Str → Info) (k : Str) : Option Info :=
  (names.reverse.find? (fun n => infoKey n == k)).map loadInfo

/-- The `pairs` list of `move_and_tag`: each audio artifact stem paired with
its sidecar record, or the empty record when the sidecar is absent. -/
def pairsOf (r : DownloadResult) (loadInfo : Str → Info) : List (Str × Info) :=
  r.downloadedStems.map fun s => (s, (lookupInfo r.infoJsonNames loadInfo s).getD emptyInfo)

/-- `enumerate(pairs, 1)`. -/
def zipNums (n : Nat) : List α → List (Nat × α)
  | [] => []
  | a :: t => (n, a) :: zipNums (n + 1) t

/-- The log entry built for pair number `i` (the destination filename it
records is also the name the artifact is moved to). -/
def mkLogEntry (artistOverride : Option Str) (i : Nat) (p : Str × Info) : LogEntry :=
  let title := cleanTitle (p.2.title.getD p.1)
  { trackNumber := i
    videoId := p.2.id.getD []
    title := title
    artist := if truthy artistOverride then artistOverride.getD [] else getArtist p.2
    filename := pad2 i ++ " - ".data ++ sanitizeFilename title ++ ".opus".data
    duration := p.2.duration }

/-- `__main__.move_and_tag`: pair artifacts with sidecars, exit fatally when no
pairs exist, otherwise resolve album metadata, build the album directory path,
number the pairs from 1 and produce the per-track entries and the download
log.  Tag writing (`embed_metadata`) delegates to the external mutagen
collaborator and is not modelled beyond the values it receives, which are the
ones recorded in the log entries. -/
def moveAndTag (r : DownloadResult) (loadInfo : Str → Info) (outputDir : Str)
    (albumOverride artistOverride : Option Str) : MTResult :=
  let pairs := pairsOf r loadInfo
  if pairs = [] then .fatal 1
  else
    let allInfos := pairs.map (fun p => p.2)
    let albumName := if truthy albumOverride then albumOverride.getD [] else r.playlistTitle
    let albumArtist :=
      if truthy artistOverride then artistOverride.getD []
      else determineAlbumArtist allInfos
    let albumDir := [outputDir, sanitizeFilename albumArtist, sanitizeFilename albumName]
    let entries := (zipNums 1 pairs).map fun ip => mkLogEntry artistOverride ip.1 ip.2
    .ok { albumDir := albumDir
          entries := entries
          log := { playlistUrl := r.playlistUrl
                   playlistTitle := r.playlistTitle
                   album := albumName
                   albumArtist := albumArtist
                   tracks := entries
                   errors := r.errors } }

/-! Helper lemmas about whitespace runs, stripping and collapsing. -/

theorem noWsPair_of_left {a b : Char} (h : isPySpace a = false) : noWsPair a b := by
  simp [noWsPair, h]

theorem noWsPair_of_right {a b : Char} (h : isPySpace b = false) : noWsPair a b := by
  simp [noWsPair, h]

theorem noWsPair_symm {a b : Char} (h : noWsPair a b) : noWsPair b a := by
  simp only [noWsPair] at h ⊢
  tauto

theorem head?_dropWhile {p : Char → Bool} {l : Str} {c : Char}
    (h : (l.dropWhile p).head? = some c) : p c = false := by
  induction l with
  | nil => simp [List.dropWhile] at h
  | cons a t ih =>
    rw [List.dropWhile_cons] at h
    by_cases hp : p a = true
    · rw [if_pos hp] at h
      exact ih h
    · rw [if_neg hp] at h
      simp only [List.head?_cons, Option.some.injEq] at h
      subst h
      simpa using hp

theorem dropWhile_eq_self_of_head? {p : Char → Bool} {l : Str}
    (h : ∀ c, l.head? = some c → p c = false) : l.dropWhile p = l := by
  cases l with
  | nil => rfl
  | cons a t =>
    rw [List.dropWhile_cons, if_neg]
    simp [h a rfl]

theorem chain'_dropWhile {S : Char → Char → Prop} {p : Char → Bool} {l : Str}
    (h : l.Chain' S) : (l.dropWhile p).Chain' S := by
  induction l with
  | nil => simp
  | cons a t ih =>
    rw [List.dropWhile_cons]
    by_cases hp : p a = true
    · rw [if_pos hp]
      exact ih (List.chain'_cons'.mp h).2
    · rw [if_neg hp]
      exact h

theorem chain'_take {S : Char → Char → Prop} {l : Str} (n : Nat)
    (h : l.Chain' S) : (l.take n).Chain' S := by
  induction l generalizing n with
  | nil => simp
  | cons a t ih =>
    cases n with
    | zero => simp
    | succ m =>
      rw [List.take_succ_cons]
      rcases List.chain'_cons'.mp h with ⟨hh, ht⟩
      refine List.chain'_cons'.mpr ⟨?_, ih m ht⟩
      intro y hy
      apply hh
      cases t with
      | nil => simp at hy
      | cons b r =>
        cases m with
        | zero => simp at hy
        | succ k =>
          rw [List.take_succ_cons] at hy
          simpa using hy

theorem chain'_noWsPair_reverse {l : Str} (h : l.Chain' noWsPair) :
    l.reverse.Chain' noWsPair := by
  rw [List.chain'_reverse]
  exact h.imp (fun _ _ hab => noWsPair_symm hab)

theorem chain'_pyStrip {l : Str} (h : l.Chain' noWsPair) : (pyStrip l).Chain' noWsPair :=
  chain'_noWsPair_reverse (chain'_dropWhile (chain'_noWsPair_reverse (chain'_dropWhile h)))

theorem pyStrip_append (l : Str) :
    pyStrip l ++ ((l.dropWhile isPySpace).reverse.takeWhile isPySpace).reverse =
      l.dropWhile isPySpace := by
  conv_rhs => rw [← List.reverse_reverse (l.dropWhile isPySpace),
    ← List.takeWhile_append_dropWhile (p := isPySpace)
      (l := (l.dropWhile isPySpace).reverse)]
  rw [List.reverse_append]
  rfl

theorem pyStrip_head? {l : Str} {c : Char} (h : (pyStrip l).head? = some c) :
    isPySpace c = false := by
  have happ := pyStrip_append l
  have hA : (l.dropWhile isPySpace).head? = some c := by
    rw [← happ]
    cases hB : pyStrip l with
    | nil => rw [hB] at h; simp at h
    | cons x xs =>
      rw [hB] at h
      simp only [List.head?_cons, Option.some.injEq] at h
      subst h
      simp
  exact head?_dropWhile hA

theorem pyStrip_reverse_head? {l : Str} {c : Char}
    (h : (pyStrip l).reverse.head? = some c) : isPySpace c = false := by
  unfold pyStrip at h
  rw [List.reverse_reverse] at h
  exact head?_dropWhile h

theorem pyStrip_idem (l : Str) : pyStrip (pyStrip l) = pyStrip l := by
  have h1 : (pyStrip l).dropWhile isPySpace = pyStrip l :=
    dropWhile_eq_self_of_head? (fun _ hc => pyStrip_head? hc)
  show (((pyStrip l).dropWhile isPySpace).reverse.dropWhile isPySpace).reverse = pyStrip l
  rw [h1]
  have h2 : (pyStrip l).reverse.dropWhile isPySpace = (pyStrip l).reverse :=
    dropWhile_eq_self_of_head? (fun _ hc => pyStrip_reverse_head? hc)
  rw [h2, List.reverse_reverse]

theorem mem_pyStrip {c : Char} {l : Str} (h : c ∈ pyStrip l) : c ∈ l := by
  unfold pyStrip at h
  have h1 := (List.dropWhile_sublist (l := (l.dropWhile isPySpace).reverse)
    (p := isPySpace)).mem (List.mem_reverse.mp h)
  exact (List.dropWhile_sublist _).mem (List.mem_reverse.mp h1)

theorem head?_collapseAllGo_true {l : Str} {c : Char}
    (h : (collapseAllGo true l).head? = some c) : isPySpace c = false := by
  induction l with
  | nil => simp [collapseAllGo] at h
  | cons a t ih =>
    by_cases ha : isPySpace a = true
    · rw [show collapseAllGo true (a :: t) = collapseAllGo true t by
        simp [collapseAllGo, ha]] at h
      exact ih h
    · rw [show collapseAllGo true (a :: t) = a :: collapseAllGo false t by
        simp [collapseAllGo, ha]] at h
      simp only [List.head?_cons, Option.some.injEq] at h
      subst h
      simpa using ha

theorem chain'_collapseAllGo (l : Str) : ∀ b, (collapseAllGo b l).Chain' noWsPair := by
  induction l with
  | nil => intro b; simp [collapseAllGo]
  | cons a t ih =>
    intro b
    by_cases ha : isPySpace a = true
    · cases b with
      | true =>
        rw [show collapseAllGo true (a :: t) = collapseAllGo true t by
          simp [collapseAllGo, ha]]
        exact ih true
      | false =>
        rw [show collapseAllGo false (a :: t) = ' ' :: collapseAllGo true t by
          simp [collapseAllGo, ha]]
        refine List.chain'_cons'.mpr ⟨?_, ih true⟩
        intro y hy
        exact noWsPair_of_right (head?_collapseAllGo_true hy)
    · rw [show collapseAllGo b (a :: t) = a :: collapseAllGo false t by
        simp [collapseAllGo, ha]]
      refine List.chain'_cons'.mpr ⟨?_, ih false⟩
      intro y _
      exact noWsPair_of_left (by simpa using ha)

theorem chain'_collapseAll (l : Str) : (collapseAll l).Chain' noWsPair :=
  chain'_collapseAllGo l false

theorem mem_collapseAllGo {c : Char} {l : Str} :
    ∀ b, c ∈ collapseAllGo b l → c = ' ' ∨ c ∈ l := by
  induction l with
  | nil => intro b h; simp [collapseAllGo] at h
  | cons a t ih =>
    intro b h
    by_cases ha : isPySpace a = true
    · cases b with
      | true =>
        rw [show collapseAllGo true (a :: t) = collapseAllGo true t by
          simp [collapseAllGo, ha]] at h
        rcases ih true h with h' | h'
        · exact Or.inl h'
        · exact Or.inr (List.mem_cons_of_mem a h')
      | false =>
        rw [show collapseAllGo false (a :: t) = ' ' :: collapseAllGo true t by
          simp [collapseAllGo, ha]] at h
        rcases List.mem_cons.mp h with h' | h'
        · exact Or.inl h'
        · rcases ih true h' with h'' | h''
          · exact Or.inl h''
          · exact Or.inr (List.mem_cons_of_mem a h'')
    · rw [show collapseAllGo b (a :: t) = a :: collapseAllGo false t by
        simp [collapseAllGo, ha]] at h
      rcases List.mem_cons.mp h with h' | h'
      · exact Or.inr (h' ▸ List.mem_cons_self a t)
      · rcases ih false h' with h'' | h''
        · exact Or.inl h''
        · exact Or.inr (List.mem_cons_of_mem a h'')

theorem chain'_collapse2Go (l : Str) : ∀ st, (collapse2Go st l).Chain' noWsPair := by
  induction l with
  | nil =>
    intro st
    match st with
    | none => simp [collapse2Go]
    | some (w, more) =>
      by_cases hm : more = true
      · simp [collapse2Go, hm]
      · simp [collapse2Go, hm]
  | cons a t ih =>
    intro st
    match st with
    | none =>
      by_cases ha : isPySpace a = true
      · rw [show collapse2Go none (a :: t) = collapse2Go (some (a, false)) t by
          simp [collapse2Go, ha]]
        exact ih _
      · rw [show collapse2Go none (a :: t) = a :: collapse2Go none t by
          simp [collapse2Go, ha]]
        refine List.chain'_cons'.mpr ⟨?_, ih none⟩
        intro y _
        exact noWsPair_of_left (by simpa using ha)
    | some (w, more) =>
      by_cases ha : isPySpace a = true
      · rw [show collapse2Go (some (w, more)) (a :: t) = collapse2Go (some (w, true)) t by
          simp [collapse2Go, ha]]
        exact ih _
      · rw [show collapse2Go (some (w, more)) (a :: t) =
            (if more then ' ' else w) :: a :: collapse2Go none t by
          by_cases hm : more = true <;> simp [collapse2Go, ha, hm]]
        refine List.chain'_cons'.mpr ⟨?_, ?_⟩
        · intro y hy
          simp only [List.head?_cons, Option.mem_def, Option.some.injEq] at hy
          subst hy
          exact noWsPair_of_right (by simpa using ha)
        · refine List.chain'_cons'.mpr ⟨?_, ih none⟩
          intro y _
          exact noWsPair_of_left (by simpa using ha)

theorem chain'_collapse2 (l : Str) : (collapse2 l).Chain' noWsPair :=
  chain'_collapse2Go l none

theorem collapse2Go_none_of_chain {l : Str} (h : l.Chain' noWsPair) :
    collapse2Go none l = l := by
  induction l with
  | nil => rfl
  | cons a t ih =>
    by_cases ha : isPySpace a = true
    · cases t with
      | nil => simp [collapse2Go, ha]
      | cons b r =>
        have hab : noWsPair a b := (List.chain'_cons.mp h).1
        have hb : isPySpace b = false := by
          by_contra hb'
          exact hab ⟨ha, by simpa using hb'⟩
        have ihr := ih (List.chain'_cons.mp h).2
        rw [show collapse2Go none (b :: r) = b :: collapse2Go none r by
          simp [collapse2Go, hb]] at ihr
        have hr : collapse2Go none r = r := by
          exact (List.cons_inj_right b).mp ihr
        rw [show collapse2Go none (a :: b :: r) = a :: b :: collapse2Go none r by
          simp [collapse2Go, ha, hb]]
        rw [hr]
    · rw [show collapse2Go none (a :: t) = a :: collapse2Go none t by
        simp [collapse2Go, ha]]
      rw [ih (List.chain'_cons'.mp h).2]

theorem collapse2_of_chain {l : Str} (h : l.Chain' noWsPair) : collapse2 l = l :=
  collapse2Go_none_of_chain h

theorem head?_take {l : Str} {n : Nat} {c : Char} (h : (l.take n).head? = some c) :
    l.head? = some c := by
  cases l with
  | nil => simp at h
  | cons a t =>
    cases n with
    | zero => simp at h
    | succ m =>
      rw [List.take_succ_cons] at h
      simpa using h

/-! Claim theorems about title cleaning and filename sanitization. -/

/-- Claim C2, counterexample: title cleaning is not idempotent.  Removing the
inner annotation of `"x (H(HD)D)"` exposes the new annotation `"(HD)"`, which
only a second application removes. -/
theorem cleanTitle_not_idempotent_cex :
    cleanTitle (cleanTitle "x (H(HD)D)".data) ≠ cleanTitle "x (H(HD)D)".data := by
  decide

/-- Claim C2, amended: title cleaning is idempotent on every input whose
cleaned result contains no further noise annotation (the substitution pass
leaves `clean_title x` unchanged), and on every input where the cleaned
intermediate is empty (the fallback branch returns the input itself).  The
unrestricted statement fails on nested annotations such as `"x (H(HD)D)"`. -/
theorem cleanTitle_idempotent_amended (x : Str)
    (h : noiseSub (cleanTitle x) = cleanTitle x ∨ cleanTitleCore x = []) :
    cleanTitle (cleanTitle x) = cleanTitle x := by
  by_cases hc : cleanTitleCore x = []
  · have hx : cleanTitle x = x := by simp [cleanTitle, hc]
    rw [hx]
    exact hx
  · have hy : cleanTitle x = cleanTitleCore x := by simp [cleanTitle, hc]
    have hsub : noiseSub (cleanTitle x) = cleanTitle x := h.resolve_right hc
    have hch : (cleanTitle x).Chain' noWsPair := by
      rw [hy]
      exact chain'_pyStrip (chain'_collapse2 _)
    have hcore : cleanTitleCore (cleanTitle x) = cleanTitle x := by
      unfold cleanTitleCore
      rw [hsub, collapse2_of_chain hch, hy]
      show pyStrip (pyStrip (collapse2 (noiseSub x))) = pyStrip (collapse2 (noiseSub x))
      exact pyStrip_idem _
    have hstep : cleanTitle (cleanTitle x) =
        if cleanTitleCore (cleanTitle x) = [] then cleanTitle x
        else cleanTitleCore (cleanTitle x) := rfl
    rw [hstep, hcore]
    split <;> rfl

/-- Witness for the amended claim C2 at a concrete input: one cleaning pass of
`"Song (Official Video)"` leaves nothing more to remove. -/
theorem cleanTitle_idempotent_amended_witness :
    cleanTitle (cleanTitle "Song (Official Video)".data) =
      cleanTitle "Song (Official Video)".data :=
  cleanTitle_idempotent_amended _ (Or.inl (by decide))

theorem orElse_eq_some_cases {α : Type} {o : Option α} {f : Unit → Option α} {r : α}
    (h : (o.orElse f) = some r) : o = some r ∨ f () = some r := by
  cases o with
  | none =>
    right
    simpa [Option.orElse] using h
  | some a =>
    left
    simpa [Option.orElse] using h

theorem matchCIGo_decomp {pat : List Char} {s r : Str} (h : matchCIGo pat s = some r) :
    ∃ p, s = p ++ r ∧ p.map foldC = pat := by
  induction pat generalizing s with
  | nil =>
    have hs : s = r := by
      rw [matchCIGo] at h
      injection h
    exact ⟨[], hs, rfl⟩
  | cons pc pcs ih =>
    cases s with
    | nil => simp [matchCIGo] at h
    | cons c cs =>
      rw [matchCIGo] at h
      by_cases hf : foldC c = pc
      · rw [if_pos hf] at h
        rcases ih h with ⟨p, hp1, hp2⟩
        exact ⟨c :: p, by rw [hp1]; rfl, by simp [hp2, hf]⟩
      · rw [if_neg hf] at h
        cases h

theorem matchCI_decomp {w : String} {s r : Str} (h : matchCI w s = some r) :
    ∃ p, s = p ++ r ∧ WordCI w p :=
  matchCIGo_decomp h

theorem ws1_decomp {s r : Str} (h : ws1 s = some r) : ∃ g, s = g ++ r ∧ WsRun g := by
  cases s with
  | nil => simp [ws1] at h
  | cons c cs =>
    rw [ws1] at h
    by_cases hc : isPySpace c = true
    · rw [if_pos hc] at h
      injection h with h
      refine ⟨c :: cs.takeWhile isPySpace, ?_, List.cons_ne_nil _ _, ?_⟩
      · rw [← h]
        show c :: cs = c :: (cs.takeWhile isPySpace ++ cs.dropWhile isPySpace)
        rw [List.takeWhile_append_dropWhile]
      · intro x hx
        rcases List.mem_cons.mp hx with hx | hx
        · rw [hx]
          exact hc
        · exact List.mem_takeWhile_imp hx
    · rw [if_neg hc] at h
      cases h

theorem matchSeq2_decomp {w1 w2 : String} {s r : Str} (h : matchSeq2 w1 w2 s = some r) :
    ∃ p, s = p ++ r ∧ Phrase2 w1 w2 p := by
  rw [matchSeq2] at h
  rcases Option.bind_eq_some.mp h with ⟨r1, h1, h2⟩
  rcases Option.bind_eq_some.mp h2 with ⟨r2, h3, h4⟩
  rcases matchCI_decomp h1 with ⟨a, ha1, ha2⟩
  rcases ws1_decomp h3 with ⟨g, hg1, hg2⟩
  rcases matchCI_decomp h4 with ⟨b, hb1, hb2⟩
  refine ⟨a ++ g ++ b, ?_, a, g, b, rfl, ha2, hg2, hb2⟩
  rw [ha1, hg1, hb1]
  simp [List.append_assoc]

theorem matchOfficialTail_decomp {s r : Str} (h : matchOfficialTail s = some r) :
    ∃ p, s = p ++ r ∧ (WordCI "video" p ∨ WordCI "audio" p ∨
      Phrase2 "music" "video" p ∨ Phrase2 "lyric" "video" p ∨
      WordCI "visualizer" p) := by
  rw [matchOfficialTail] at h
  rcases orElse_eq_some_cases h with h | h
  · rcases matchCI_decomp h with ⟨p, h1, h2⟩
    exact ⟨p, h1, Or.inl h2⟩
  rcases orElse_eq_some_cases h with h | h
  · rcases matchCI_decomp h with ⟨p, h1, h2⟩
    exact ⟨p, h1, Or.inr (Or.inl h2)⟩
  rcases orElse_eq_some_cases h with h | h
  · rcases matchSeq2_decomp h with ⟨p, h1, h2⟩
    exact ⟨p, h1, Or.inr (Or.inr (Or.inl h2))⟩
  rcases orElse_eq_some_cases h with h | h
  · rcases matchSeq2_decomp h with ⟨p, h1, h2⟩
    exact ⟨p, h1, Or.inr (Or.inr (Or.inr (Or.inl h2)))⟩
  · rcases matchCI_decomp h with ⟨p, h1, h2⟩
    exact ⟨p, h1, Or.inr (Or.inr (Or.inr (Or.inr h2)))⟩

theorem phraseTail_decomp {s r : Str} (h : phraseTail s = some r) :
    ∃ p, s = p ++ r ∧ NoisePhrase p := by
  rw [phraseTail] at h
  rcases orElse_eq_some_cases h with h | h
  · rcases Option.bind_eq_some.mp h with ⟨r1, h1, h2⟩
    rcases Option.bind_eq_some.mp h2 with ⟨r2, h3, h4⟩
    rcases matchCI_decomp h1 with ⟨a, ha1, ha2⟩
    rcases ws1_decomp h3 with ⟨g, hg1, hg2⟩
    rcases matchOfficialTail_decomp h4 with ⟨pt, hp1, hp2⟩
    refine ⟨a ++ g ++ pt, ?_, ?_⟩
    · rw [ha1, hg1, hp1]
      simp [List.append_assoc]
    · rcases hp2 with h5 | h5 | h5 | h5 | h5
      · exact Or.inl ⟨a, g, pt, rfl, ha2, hg2, h5⟩
      · exact Or.inr (Or.inl ⟨a, g, pt, rfl, ha2, hg2, h5⟩)
      · exact Or.inr (Or.inr (Or.inl ⟨a, g, pt, rfl, ha2, hg2, h5⟩))
      · exact Or.inr (Or.inr (Or.inr (Or.inl ⟨a, g, pt, rfl, ha2, hg2, h5⟩)))
      · exact Or.inr (Or.inr (Or.inr (Or.inr (Or.inl ⟨a, g, pt, rfl, ha2, hg2, h5⟩))))
  rcases orElse_eq_some_cases h with h | h
  · rcases matchSeq2_decomp h with ⟨p, h1, h2⟩
    exact ⟨p, h1, Or.inr (Or.inr (Or.inr (Or.inr (Or.inr (Or.inl h2)))))⟩
  rcases orElse_eq_some_cases h with h | h
  · rcases matchSeq2_decomp h with ⟨p, h1, h2⟩
    exact ⟨p, h1, Or.inr (Or.inr (Or.inr (Or.inr (Or.inr (Or.inr (Or.inl h2))))))⟩
  rcases orElse_eq_some_cases h with h | h
  · rcases matchCI_decomp h with ⟨p, h1, h2⟩
    exact ⟨p, h1, Or.inr (Or.inr (Or.inr (Or.inr (Or.inr (Or.inr (Or.inr (Or.inl h2)))))))⟩
  rcases orElse_eq_some_cases h with h | h
  · rcases matchCI_decomp h with ⟨p, h1, h2⟩
    exact ⟨p, h1, Or.inr (Or.inr (Or.inr (Or.inr (Or.inr (Or.inr (Or.inr (Or.inr
      (Or.inl h2))))))))⟩
  rcases orElse_eq_some_cases h with h | h
  · rcases matchCI_decomp h with ⟨p, h1, h2⟩
    exact ⟨p, h1, Or.inr (Or.inr (Or.inr (Or.inr (Or.inr (Or.inr (Or.inr (Or.inr
      (Or.inr (Or.inl h2)))))))))⟩
  · rcases matchCI_decomp h with ⟨p, h1, h2⟩
    exact ⟨p, h1, Or.inr (Or.inr (Or.inr (Or.inr (Or.inr (Or.inr (Or.inr (Or.inr
      (Or.inr (Or.inr h2)))))))))⟩

theorem tryNoise_decomp {l rem : Str} (h : tryNoise l = some rem) :
    ∃ w o inner c, l = w ++ o :: (inner ++ c :: rem) ∧ WsOnly w ∧
      (o = '(' ∨ o = '[') ∧ (c = ')' ∨ c = ']') ∧
      ∃ w1 p w2, inner = w1 ++ p ++ w2 ∧ WsOnly w1 ∧ WsOnly w2 ∧ NoisePhrase p := by
  rw [tryNoise] at h
  rcases hdw : l.dropWhile isPySpace with _ | ⟨c0, r⟩
  · rw [hdw] at h
    cases h
  rw [hdw] at h
  simp only [] at h
  by_cases hbr : (c0 = '(' || c0 = '[') = true
  · rw [if_pos hbr] at h
    rcases hpt : phraseTail (r.dropWhile isPySpace) with _ | r2
    · rw [hpt] at h
      cases h
    rw [hpt] at h
    simp only [] at h
    rcases hdw2 : r2.dropWhile isPySpace with _ | ⟨d, r4⟩
    · rw [hdw2] at h
      cases h
    rw [hdw2] at h
    simp only [] at h
    by_cases hcl : (d = ')' || d = ']') = true
    · rw [if_pos hcl] at h
      injection h with h
      subst r4
      rcases phraseTail_decomp hpt with ⟨p, hp1, hp2⟩
      have hl : l = l.takeWhile isPySpace ++ (c0 :: r) := by
        conv_lhs => rw [← List.takeWhile_append_dropWhile (p := isPySpace) (l := l), hdw]
      have hr : r = r.takeWhile isPySpace ++ (p ++ r2) := by
        conv_lhs => rw [← List.takeWhile_append_dropWhile (p := isPySpace) (l := r), hp1]
      have hr2 : r2 = r2.takeWhile isPySpace ++ (d :: rem) := by
        conv_lhs => rw [← List.takeWhile_append_dropWhile (p := isPySpace) (l := r2), hdw2]
      refine ⟨l.takeWhile isPySpace, c0,
        r.takeWhile isPySpace ++ p ++ r2.takeWhile isPySpace, d, ?_, ?_, ?_, ?_,
        r.takeWhile isPySpace, p, r2.takeWhile isPySpace, rfl, ?_, ?_, hp2⟩
      · calc l = l.takeWhile isPySpace ++ (c0 :: r) := hl
          _ = l.takeWhile isPySpace ++ (c0 :: (r.takeWhile isPySpace ++ (p ++ r2))) := by
              rw [← hr]
          _ = l.takeWhile isPySpace ++ (c0 :: (r.takeWhile isPySpace ++
              (p ++ (r2.takeWhile isPySpace ++ (d :: rem))))) := by
              rw [← hr2]
          _ = l.takeWhile isPySpace ++ c0 ::
              ((r.takeWhile isPySpace ++ p ++ r2.takeWhile isPySpace) ++ d :: rem) := by
              simp [List.append_assoc]
      · intro x hx
        exact List.mem_takeWhile_imp hx
      · simpa using hbr
      · simpa using hcl
      · intro x hx
        exact List.mem_takeWhile_imp hx
      · intro x hx
        exact List.mem_takeWhile_imp hx
    · rw [if_neg hcl] at h
      cases h
  · rw [if_neg hbr] at h
    cases h

/-- Claim C3: the closed noise vocabulary is removed exactly when it fills the
whole bracket.  The three specified instances hold — `"Song (Official Video)"`
and `"Track [HD]"` lose their annotations while the non-matching content of
`"Keep (This)"` is preserved — and universally, the noise matcher fires only
on a span consisting of optional whitespace, an opening bracket, and bracket
content that is exactly a vocabulary phrase (case-insensitively) surrounded by
optional whitespace, up to the closing bracket. -/
theorem cleanTitle_noise_vocabulary :
    (cleanTitle "Song (Official Video)".data = "Song".data ∧
     cleanTitle "Track [HD]".data = "Track".data ∧
     cleanTitle "Keep (This)".data = "Keep (This)".data) ∧
    ∀ l rem, tryNoise l = some rem →
      ∃ w o inner c, l = w ++ o :: (inner ++ c :: rem) ∧ WsOnly w ∧
        (o = '(' ∨ o = '[') ∧ (c = ')' ∨ c = ']') ∧
        ∃ w1 p w2, inner = w1 ++ p ++ w2 ∧ WsOnly w1 ∧ WsOnly w2 ∧ NoisePhrase p := by
  constructor
  · refine ⟨by decide, by decide, by decide⟩
  · intro l rem h
    exact tryNoise_decomp h

/-- Witness for claim C3 at a concrete input: the matcher fires on
`" (HD)x"` leaving `"x"`, and the decomposition it guarantees exists. -/
theorem cleanTitle_noise_vocabulary_witness :
    ∃ w o inner c, " (HD)x".data = w ++ o :: (inner ++ c :: "x".data) ∧ WsOnly w ∧
      (o = '(' ∨ o = '[') ∧ (c = ')' ∨ c = ']') ∧
      ∃ w1 p w2, inner = w1 ++ p ++ w2 ∧ WsOnly w1 ∧ WsOnly w2 ∧ NoisePhrase p :=
  cleanTitle_noise_vocabulary.2 " (HD)x".data "x".data (by decide)

/-- Claim C4: when the cleaned-and-trimmed intermediate is empty,
`clean_title` returns the original title unchanged, and consequently a
non-empty input never produces an empty title. -/
theorem cleanTitle_empty_fallback (raw : Str) :
    (cleanTitleCore raw = [] → cleanTitle raw = raw) ∧
    (raw ≠ [] → cleanTitle raw ≠ []) := by
  constructor
  · intro h
    simp [cleanTitle, h]
  · intro hne
    by_cases h : cleanTitleCore raw = []
    · simp only [cleanTitle, h, if_pos]
      exact hne
    · simp [cleanTitle, h]

/-- Witness for claim C4 at a concrete input: cleaning `"(HD)"` empties it, so
the original title is returned. -/
theorem cleanTitle_empty_fallback_witness :
    cleanTitle "(HD)".data = "(HD)".data ∧ cleanTitle "(HD)".data ≠ [] :=
  ⟨(cleanTitle_empty_fallback "(HD)".data).1 (by decide),
   (cleanTitle_empty_fallback "(HD)".data).2 (by decide)⟩

/-- Claim C5, counterexample: sanitization truncates to 200 characters after
stripping, so a name of 199 letters followed by `" b"` produces an output whose
last character is a whitespace character. -/
theorem sanitizeFilename_trailing_ws_cex :
    (sanitizeFilename (List.replicate 199 'a' ++ [' ', 'b'])).getLast? = some ' ' ∧
    isPySpace ' ' = true := by
  decide

/-- Claim C5, amended: the output of `sanitize_filename` contains none of the
illegal filesystem characters, has no run of two or more consecutive
whitespace characters, has no leading whitespace, and is at most 200
characters long.  (Trailing whitespace is possible when the final 200-character
truncation cuts a longer name just after a space, as the counterexample
shows; everything else in the claim holds.) -/
theorem sanitizeFilename_invariants (s : Str) :
    (∀ c ∈ sanitizeFilename s, isIllegalFsChar c = false) ∧
    (sanitizeFilename s).Chain' noWsPair ∧
    (∀ c, (sanitizeFilename s).head? = some c → isPySpace c = false) ∧
    (sanitizeFilename s).length ≤ 200 := by
  refine ⟨?_, ?_, ?_, ?_⟩
  · intro c hc
    have h1 : c ∈ pyStrip (collapseAll (s.filter (fun c => !isIllegalFsChar c))) :=
      (List.take_sublist _ _).mem hc
    have h2 := mem_pyStrip h1
    rcases mem_collapseAllGo false h2 with h3 | h3
    · subst h3
      decide
    · simpa using (List.mem_filter.mp h3).2
  · exact chain'_take _ (chain'_pyStrip (chain'_collapseAll _))
  · intro c hc
    exact pyStrip_head? (head?_take hc)
  · rw [sanitizeFilename, List.length_take]
    exact min_le_left _ _

/-- Witness for the amended claim C5 at a concrete input. -/
theorem sanitizeFilename_invariants_witness :
    isIllegalFsChar '<' = true ∧ ('<' ∈ sanitizeFilename "a  b<".data → False) ∧
    (sanitizeFilename "a  b<".data).length ≤ 200 := by
  refine ⟨by decide, ?_, (sanitizeFilename_invariants "a  b<".data).2.2.2⟩
  intro hmem
  have := (sanitizeFilename_invariants "a  b<".data).1 '<' hmem
  exact absurd this (by decide)

/-! Claim theorems about metadata resolution and organization. -/

/-- Claim C1: for a non-empty track list without artist override, the album
artist is the sole resolved artist when the distinct set of resolved artists
is a singleton, and the sentinel when it has more than one member. -/
theorem determineAlbumArtist_reconciliation (infos : List Info) (a : Str)
    (_hne : infos ≠ []) :
    ((infos.map getArtist).dedup = [a] → determineAlbumArtist infos = a) ∧
    (1 < (infos.map getArtist).dedup.length →
      determineAlbumArtist infos = "Various Artists".data) := by
  constructor
  · intro h
    simp [determineAlbumArtist, h]
  · intro h
    have hne1 : ¬((infos.map getArtist).dedup.length = 1) := by omega
    simp [determineAlbumArtist, hne1]

/-- Witness for claim C1 at concrete inputs: two tracks sharing one artist,
and two tracks with different artists. -/
theorem determineAlbumArtist_reconciliation_witness :
    determineAlbumArtist [{ artist := some "A".data }, { artist := some "A".data }] =
      "A".data ∧
    determineAlbumArtist [{ artist := some "A".data }, { artist := some "B".data }] =
      "Various Artists".data :=
  ⟨(determineAlbumArtist_reconciliation
      [{ artist := some "A".data }, { artist := some "A".data }] "A".data
      (by decide)).1 (by decide),
   (determineAlbumArtist_reconciliation
      [{ artist := some "A".data }, { artist := some "B".data }] "A".data
      (by decide)).2 (by decide)⟩

theorem zipNums_length (n : Nat) (l : List α) : (zipNums n l).length = l.length := by
  induction l generalizing n with
  | nil => rfl
  | cons a t ih => simp [zipNums, ih]

theorem zipNums_getElem? (n : Nat) (l : List α) (i : Nat) :
    (zipNums n l)[i]? = l[i]?.map (fun a => (n + i, a)) := by
  induction l generalizing n i with
  | nil => simp [zipNums]
  | cons a t ih =>
    cases i with
    | zero => simp [zipNums]
    | succ j =>
      rw [show zipNums n (a :: t) = (n, a) :: zipNums (n + 1) t from rfl,
        List.getElem?_cons_succ, List.getElem?_cons_succ, ih (n + 1) j]
      have harith : n + 1 + j = n + (j + 1) := by omega
      rw [harith]

theorem pairsOf_getElem? (r : DownloadResult) (loadInfo : Str → Info) (j : Nat) :
    (pairsOf r loadInfo)[j]? = (r.downloadedStems[j]?).map
      (fun s => (s, (lookupInfo r.infoJsonNames loadInfo s).getD emptyInfo)) := by
  rw [pairsOf, List.getElem?_map]

/-- Claim C6: a non-empty pair list is numbered 1..N contiguously in matched
order, independently of which playlist indices survived the fetch, and each
destination filename is the zero-padded number, the separator, the sanitized
cleaned title and the `.opus` extension. -/
theorem moveAndTag_track_numbering (r : DownloadResult) (loadInfo : Str → Info)
    (od : Str) (ao aov : Option Str) (h : r.downloadedStems ≠ []) :
    ∃ o, moveAndTag r loadInfo od ao aov = .ok o ∧
      o.entries.length = r.downloadedStems.length ∧
      ∀ j, j < r.downloadedStems.length →
        ∃ e stem, o.entries[j]? = some e ∧ r.downloadedStems[j]? = some stem ∧
          e.trackNumber = j + 1 ∧
          e.title = cleanTitle
            (((lookupInfo r.infoJsonNames loadInfo stem).getD emptyInfo).title.getD stem) ∧
          e.filename =
            pad2 (j + 1) ++ " - ".data ++ sanitizeFilename e.title ++ ".opus".data := by
  have hp : pairsOf r loadInfo ≠ [] := by
    simpa [pairsOf] using h
  refine ⟨_, by rw [moveAndTag, if_neg hp], ?_, ?_⟩
  · simp [List.length_map, zipNums_length, pairsOf]
  · intro j hj
    have hstem : r.downloadedStems[j]? = some r.downloadedStems[j] :=
      List.getElem?_eq_getElem hj
    refine ⟨mkLogEntry aov (1 + j)
        (r.downloadedStems[j],
          (lookupInfo r.infoJsonNames loadInfo r.downloadedStems[j]).getD emptyInfo),
      r.downloadedStems[j], ?_, hstem, by show 1 + j = j + 1; omega, rfl, ?_⟩
    · rw [List.getElem?_map, zipNums_getElem?, pairsOf_getElem?, hstem]
      rfl
    · rw [show j + 1 = 1 + j from by omega]
      rfl

/-- Witness for claim C6: two artifacts whose fetched playlist indices were 3
and 7 are renumbered 1 and 2. -/
theorem moveAndTag_track_numbering_witness :
    ∃ o, moveAndTag
        { playlistTitle := "PL".data, playlistUrl := "u".data,
          downloadedStems := ["003 - C".data, "007 - D".data], infoJsonNames := [],
          errors := [] } (fun _ => emptyInfo) "out".data none none = .ok o ∧
      o.entries.length = (["003 - C".data, "007 - D".data] : List Str).length ∧
      ∀ j, j < (["003 - C".data, "007 - D".data] : List Str).length →
        ∃ e stem, o.entries[j]? = some e ∧
          (["003 - C".data, "007 - D".data] : List Str)[j]? = some stem ∧
          e.trackNumber = j + 1 ∧
          e.title = cleanTitle
            (((lookupInfo [] (fun _ => emptyInfo) stem).getD emptyInfo).title.getD stem) ∧
          e.filename =
            pad2 (j + 1) ++ " - ".data ++ sanitizeFilename e.title ++ ".opus".data :=
  moveAndTag_track_numbering
    { playlistTitle := "PL".data, playlistUrl := "u".data,
      downloadedStems := ["003 - C".data, "007 - D".data], infoJsonNames := [],
      errors := [] } (fun _ => emptyInfo) "out".data none none (by decide)

/-- Claim C7: an artifact whose sidecar is absent is paired with the empty
metadata record; its log entry falls back to the cleaned filename stem as
title and to the sentinel artist, the run is not aborted, and the entries of
the other artifacts are unaffected by the missing sidecar. -/
theorem moveAndTag_missing_sidecar (r : DownloadResult) (loadInfo : Str → Info)
    (od : Str) (ao : Option Str) (j : Nat) (stem : Str)
    (hstem : r.downloadedStems[j]? = some stem)
    (habs : lookupInfo r.infoJsonNames loadInfo stem = none) :
    (pairsOf r loadInfo)[j]? = some (stem, emptyInfo) ∧
    ∃ o, moveAndTag r loadInfo od ao none = .ok o ∧
      (∃ e, o.entries[j]? = some e ∧ e.artist = "Unknown Artist".data ∧
        e.title = cleanTitle stem) ∧
      ∀ (names2 : List Str) (load2 : Str → Info) (k : Nat) (stem2 : Str), k ≠ j →
        r.downloadedStems[k]? = some stem2 →
        lookupInfo names2 load2 stem2 = lookupInfo r.infoJsonNames loadInfo stem2 →
        ∃ o2, moveAndTag { r with infoJsonNames := names2 } load2 od ao none = .ok o2 ∧
          o2.entries[k]? = o.entries[k]? := by
  have hpair : (pairsOf r loadInfo)[j]? = some (stem, emptyInfo) := by
    rw [pairsOf_getElem?, hstem, Option.map_some', habs]
    rfl
  refine ⟨hpair, ?_⟩
  have hne : r.downloadedStems ≠ [] := by
    intro hnil
    rw [hnil] at hstem
    simp at hstem
  have hp : pairsOf r loadInfo ≠ [] := by
    simpa [pairsOf] using hne
  refine ⟨_, by rw [moveAndTag, if_neg hp], ?_, ?_⟩
  · refine ⟨mkLogEntry none (1 + j) (stem, emptyInfo), ?_, rfl, rfl⟩
    show ((zipNums 1 (pairsOf r loadInfo)).map
      (fun ip => mkLogEntry none ip.1 ip.2))[j]? = _
    rw [List.getElem?_map, zipNums_getElem?, hpair]
    rfl
  · intro names2 load2 k stem2 _hk hstem2 hsame
    have hp2 : pairsOf { r with infoJsonNames := names2 } load2 ≠ [] := by
      simpa [pairsOf] using hne
    refine ⟨_, by rw [moveAndTag, if_neg hp2], ?_⟩
    show ((zipNums 1 (pairsOf { r with infoJsonNames := names2 } load2)).map
        (fun ip => mkLogEntry none ip.1 ip.2))[k]? =
      ((zipNums 1 (pairsOf r loadInfo)).map (fun ip => mkLogEntry none ip.1 ip.2))[k]?
    have hstems2 : ({ r with infoJsonNames := names2 } : DownloadResult).downloadedStems =
      r.downloadedStems := rfl
    have hnames2 : ({ r with infoJsonNames := names2 } : DownloadResult).infoJsonNames =
      names2 := rfl
    rw [List.getElem?_map, List.getElem?_map, zipNums_getElem?, zipNums_getElem?,
      pairsOf_getElem?, pairsOf_getElem?, hstems2, hnames2, hstem2]
    simp only [Option.map_some']
    rw [hsame]

/-- Witness for claim C7: three artifacts of which the second has no sidecar;
its entry degrades to the stem title and sentinel artist while the others keep
their sidecar metadata, and the run completes. -/
theorem moveAndTag_missing_sidecar_witness :
    (pairsOf
        { playlistTitle := "PL".data, playlistUrl := "u".data,
          downloadedStems := ["001 - A (HD)".data, "002 - B".data],
          infoJsonNames := ["001 - A (HD).info.json".data], errors := [] }
        (fun _ => { artist := some "Art".data, title := some "A (HD)".data }))[1]? =
      some ("002 - B".data, emptyInfo) ∧
    ∃ o, moveAndTag
        { playlistTitle := "PL".data, playlistUrl := "u".data,
          downloadedStems := ["001 - A (HD)".data, "002 - B".data],
          infoJsonNames := ["001 - A (HD).info.json".data], errors := [] }
        (fun _ => { artist := some "Art".data, title := some "A (HD)".data })
        "out".data none none = .ok o ∧
      (∃ e, o.entries[1]? = some e ∧ e.artist = "Unknown Artist".data ∧
        e.title = cleanTitle "002 - B".data) ∧
      ∀ (names2 : List Str) (load2 : Str → Info) (k : Nat) (stem2 : Str), k ≠ 1 →
        (["001 - A (HD)".data, "002 - B".data] : List Str)[k]? = some stem2 →
        lookupInfo names2 load2 stem2 =
          lookupInfo ["001 - A (HD).info.json".data]
            (fun _ => { artist := some "Art".data, title := some "A (HD)".data }) stem2 →
        ∃ o2, moveAndTag
            { playlistTitle := "PL".data, playlistUrl := "u".data,
              downloadedStems := ["001 - A (HD)".data, "002 - B".data],
              infoJsonNames := names2, errors := [] } load2 "out".data none none = .ok o2 ∧
          o2.entries[k]? = o.entries[k]? :=
  moveAndTag_missing_sidecar
    { playlistTitle := "PL".data, playlistUrl := "u".data,
      downloadedStems := ["001 - A (HD)".data, "002 - B".data],
      infoJsonNames := ["001 - A (HD).info.json".data], errors := [] }
    (fun _ => { artist := some "Art".data, title := some "A (HD)".data })
    "out".data none 1 "002 - B".data (by decide) (by decide)

/-- Claim C8: with zero fetched artifacts there are zero pairs, the run exits
fatally with code 1 and no destination directory is created. -/
theorem moveAndTag_zero_tracks_aborts (r : DownloadResult) (loadInfo : Str → Info)
    (od : Str) (ao aov : Option Str) (h : r.downloadedStems = []) :
    moveAndTag r loadInfo od ao aov = .fatal 1 ∧
    createdDirs (moveAndTag r loadInfo od ao aov) = [] := by
  have hp : pairsOf r loadInfo = [] := by simp [pairsOf, h]
  constructor
  · rw [moveAndTag, if_pos hp]
  · rw [moveAndTag, if_pos hp]
    rfl

/-- Witness for claim C8 at a concrete empty fetch result. -/
theorem moveAndTag_zero_tracks_aborts_witness :
    moveAndTag
        { playlistTitle := "PL".data, playlistUrl := "u".data,
          downloadedStems := [], infoJsonNames := [], errors := [] }
        (fun _ => emptyInfo) "out".data none none = .fatal 1 ∧
    createdDirs (moveAndTag
        { playlistTitle := "PL".data, playlistUrl := "u".data,
          downloadedStems := [], infoJsonNames := [], errors := [] }
        (fun _ => emptyInfo) "out".data none none) = [] :=
  moveAndTag_zero_tracks_aborts
    { playlistTitle := "PL".data, playlistUrl := "u".data,
      downloadedStems := [], infoJsonNames := [], errors := [] }
    (fun _ => emptyInfo) "out".data none none rfl

/-- Claim C9: `download_playlist` constructs its result with an empty error
list and never appends to it, so any fetch failures skipped by the external
tool are not recorded, and the persisted log's `errors` field, which copies
`result.errors`, is empty for every run that completes organization. -/
theorem downloadPlaylist_errors_always_empty :
    (∀ pl listing, (downloadPlaylist pl listing).errors = []) ∧
    (∀ r loadInfo od ao aov o, moveAndTag r loadInfo od ao aov = MTResult.ok o →
      o.log.errors = r.errors) := by
  constructor
  · intro pl listing
    rfl
  · intro r loadInfo od ao aov o h
    by_cases hp : pairsOf r loadInfo = []
    · rw [moveAndTag, if_pos hp] at h
      cases h
    · rw [moveAndTag, if_neg hp] at h
      injection h with h
      subst h
      rfl

/-- Witness for claim C9: a run over one fetched artifact produces a log whose
error list equals the (empty) collected error list. -/
theorem downloadPlaylist_errors_always_empty_witness :
    ({ albumDir := ["out".data, "Unknown Artist".data, "PL".data],
       entries := [{ trackNumber := 1, videoId := [], title := "001 - A".data,
                     artist := "Unknown Artist".data,
                     filename := "01 - 001 - A.opus".data, duration := none }],
       log := { playlistUrl := "u".data, playlistTitle := "PL".data,
                album := "PL".data, albumArtist := "Unknown Artist".data,
                tracks := [{ trackNumber := 1, videoId := [], title := "001 - A".data,
                             artist := "Unknown Artist".data,
                             filename := "01 - 001 - A.opus".data, duration := none }],
                errors := [] } } : TagOutput).log.errors =
      (downloadPlaylist { title := "PL".data, url := "u".data }
        ["001 - A.opus".data]).errors :=
  downloadPlaylist_errors_always_empty.2
    (downloadPlaylist { title := "PL".data, url := "u".data } ["001 - A.opus".data])
    (fun _ => emptyInfo) "out".data none none _ (by decide)

/-! Claim theorems about playlist URL normalization. -/

end YtAudioDl
